import Mathlib

/-!
Verification of the lupdate clang-based extraction core
(src/linguist/lupdate/cpp_clang.h).

Strings from the C++ side (QString, std::string, llvm::StringRef) are
embedded as List Char; Qt integer types (qint64) as Int.  The two
cleanQuote overloads, the TranslationRelatedStore record with isValid and
callLocation, and the Stores aggregate are translated below directly from
the source.  The QRegularExpression patterns used by the std::string
overload of cleanQuote are embedded as dedicated matching functions that
implement exactly the backtracking semantics of those two patterns
(leftmost match; ordering of lazy/greedy alternatives is worked out in the
comments at each definition).
-/

/-- Characters stripped by llvm::StringRef::trim() (default char set
" \t\n\v\f\r"). -/
def isLLVMTrimChar (c : Char) : Bool :=
  c = ' ' || c = '\t' || c = '\n' || c = '\x0b' || c = '\x0c' || c = '\r'

/-- Characters stripped by QString::trimmed() via QChar::isSpace: ASCII
space and control range, plus the Latin-1 spaces U+0085 and U+00A0.
(QChar::isSpace also covers Unicode Zs/Zl/Zp beyond Latin-1; every input
in this development is Latin-1 so the restriction is exact here.) -/
def qcharIsSpace (c : Char) : Bool :=
  c = ' ' || c = '\t' || c = '\n' || c = '\x0b' || c = '\x0c' || c = '\r'
    || c = '\x85' || c = '\xa0'

/-- Remove leading and trailing characters satisfying f (the common form
of llvm::StringRef::trim and QString::trimmed). -/
def trimBy (f : Char → Bool) (s : List Char) : List Char :=
  ((s.dropWhile f).reverse.dropWhile f).reverse

/-- Index of the first double quote, mirroring
QString::indexOf(QLatin1Char('"')) (none stands for the C++ return -1). -/
def indexOfQuote : List Char → Option Nat
  | [] => none
  | c :: rest => if c = '"' then some 0 else (indexOfQuote rest).map (· + 1)

/-- PCRE word character (\w with default QRegularExpression options:
ASCII letters, digits, underscore). -/
def isWordChar (c : Char) : Bool :=
  c.isAlpha || c.isDigit || c = '_'

/-- PCRE word boundary \b immediately before a word character c, where
prev is the preceding character of the subject (none at the start). -/
def boundaryAt (prev : Option Char) (c : Char) : Bool :=
  isWordChar c &&
    (match prev with
     | none => true
     | some p => !isWordChar p)

namespace LupdatePrivate

/-- QuoteCompulsary enumerator None = 0x01. -/
def None : Nat := 0x01

/-- QuoteCompulsary enumerator Left = 0x02 (left quote is mandatory). -/
def Left : Nat := 0x02

/-- QuoteCompulsary enumerator Right = 0x04 (right quote is mandatory). -/
def Right : Nat := 0x04

/-- QuoteCompulsary enumerator LeftAndRight = Left | Right. -/
def LeftAndRight : Nat := Left ||| Right

/-- llvm::StringRef::consume_front("\"") : returns whether the string
started with a quote, together with the string after consuming it. -/
def consume_front (s : List Char) : Bool × List Char :=
  match s with
  | [] => (false, [])
  | c :: rest => if c = '"' then (true, rest) else (false, c :: rest)

/-- llvm::StringRef::consume_back("\"") : returns whether the string
ended with a quote, together with the string after consuming it. -/
def consume_back (s : List Char) : Bool × List Char :=
  match s.getLast? with
  | none => (false, s)
  | some c => if c = '"' then (true, s.dropLast) else (false, s)

/-- Translation of the llvm::StringRef overload
cleanQuote(llvm::StringRef s, QuoteCompulsary quote): return empty for
empty input; trim; if a mandatory quote (per the Left/Right bits) is
missing return empty; otherwise return the text with present outer
quotes consumed. -/
def cleanQuote (s0 : List Char) (quote : Nat) : List Char :=
  if s0.isEmpty then []
  else
    let s1 := trimBy isLLVMTrimChar s0
    let f := consume_front s1
    if !f.1 && (quote &&& Left != 0) then []
    else
      let b := consume_back f.2
      if !b.1 && (quote &&& Right != 0) then []
      else b.2

/-- Scanner for the capture group of the string-literal pattern
[^"\\]*(?:\\.[^"\\]*)* followed by a closing quote, from the regex
(?:\bu8|\b[LuU])+?\"(?<characters>[^\"\\]*(?:\\.[^\"\\]*)*)\"
(DotMatchesEverything NOT set, so the dot after a backslash excludes
newline).  The group is greedy but its backtracking is vacuous: members
of the group language contain no unescaped quote and never end in a lone
backslash, so the unique viable match is the maximal scan ending at the
first reachable unescaped quote.  Returns (captured, rest after the
closing quote). -/
def scanBody : List Char → Option (List Char × List Char)
  | [] => none
  | c :: rest =>
    if c = '"' then some ([], rest)
    else if c = '\\' then
      match rest with
      | [] => none
      | c2 :: rest2 =>
        if c2 = '\n' then none
        else (scanBody rest2).map (fun p => (c :: c2 :: p.1, p.2))
    else (scanBody rest).map (fun p => (c :: p.1, p.2))

/-- Membership in the group language of scanBody: no unescaped quote, a
backslash is always followed by a non-newline character. -/
def bodyOk : List Char → Bool
  | [] => true
  | c :: rest =>
    if c = '"' then false
    else if c = '\\' then
      match rest with
      | [] => false
      | c2 :: rest2 => decide (c2 ≠ '\n') && bodyOk rest2
    else bodyOk rest

/-- Match attempt of the string-literal pattern at one fixed position of
the subject: a one-repetition encoding prefix (the lazy +? tries one
repetition first, in alternation order u8 then [LuU]; two or more
repetitions always fail because \b cannot hold between two word
characters), then the opening quote, then the capture group and closing
quote via scanBody.  The take conditions are mutually exclusive, so the
if-chain is exactly the PCRE alternation order.  prev is the character
before this position (none at the start of the subject), needed for the
word boundary \b in front of the prefix. -/
def ordinaryHere (prev : Option Char) (s : List Char) :
    Option (List Char) :=
  if s.take 3 = ['u', '8', '"'] ∧ boundaryAt prev 'u' = true then
    (scanBody (s.drop 3)).map (·.1)
  else if (s.take 2 = ['L', '"'] ∧ boundaryAt prev 'L' = true)
      ∨ (s.take 2 = ['u', '"'] ∧ boundaryAt prev 'u' = true)
      ∨ (s.take 2 = ['U', '"'] ∧ boundaryAt prev 'U' = true) then
    (scanBody (s.drop 2)).map (·.1)
  else none

/-- Search for the string-literal pattern
(?:\bu8|\b[LuU])+?\"(?<characters>...)\" anywhere in the subject
(QRegularExpression::match is a search, the leftmost matching position
wins): try ordinaryHere at every position from the left. -/
def searchOrdinary : Option Char → List Char → Option (List Char)
  | _, [] => none
  | prev, c :: rest =>
    match ordinaryHere prev (c :: rest) with
    | some w => some w
    | none => searchOrdinary (some c) rest

/-- Raw-literal delimiter character class [^\(\)\\ ] from the raw-string
pattern. -/
def rawClassChar (c : Char) : Bool :=
  !(c = '(' || c = ')' || c = '\\' || c = ' ')

/-- Locate the last occurrence of ")" ++ d ++ "\"" in the text and return
everything before it: this is what the greedy (?<characters>.*) followed
by \)\1\" captures under DotMatchesEverything (the pattern ends there, so
the longest, i.e. last, split that still matches wins). -/
def findLastClose (d : List Char) : List Char → Option (List Char)
  | [] => none
  | c :: rest =>
    match findLastClose d rest with
    | some w => some (c :: w)
    | none =>
      if (')' :: (d ++ ['"'])).isPrefixOf (c :: rest) then some [] else none

/-- Body of the raw-string pattern after R\" has been consumed:
([^\(\)\\ ]{0,16})\((?<characters>.*)\)\1\".  The greedy bounded class
run has vacuous backtracking (shortening the run leaves a class
character, never the required open parenthesis, at the split), so the
delimiter is the maximal class run when its length is at most 16. -/
def rawBody (s : List Char) : Option (List Char) :=
  let run := s.takeWhile rawClassChar
  if run.length ≤ 16 then
    match s.drop run.length with
    | '(' :: rest => findLastClose run rest
    | _ => none
  else none

/-- Match attempt of the raw-string pattern at one fixed position: the
lazy ?? prefers no encoding prefix (there is no \b in front of the R
itself), then u8, then [LuU], each followed by R\" and the delimiter,
characters and closing sequence via rawBody.  The take conditions are
mutually exclusive, so the if-chain is exactly the PCRE alternation
order. -/
def rawHere (prev : Option Char) (s : List Char) : Option (List Char) :=
  if s.take 2 = ['R', '"'] then rawBody (s.drop 2)
  else if s.take 4 = ['u', '8', 'R', '"'] ∧ boundaryAt prev 'u' = true then
    rawBody (s.drop 4)
  else if (s.take 3 = ['L', 'R', '"'] ∧ boundaryAt prev 'L' = true)
      ∨ (s.take 3 = ['u', 'R', '"'] ∧ boundaryAt prev 'u' = true)
      ∨ (s.take 3 = ['U', 'R', '"'] ∧ boundaryAt prev 'U' = true) then
    rawBody (s.drop 3)
  else none

/-- Search for the raw-string pattern
(?:\bu8|\b[LuU])??R\"([^\(\)\\ ]{0,16})\((?<characters>.*)\)\1\"
anywhere in the subject: try rawHere at every position from the left. -/
def searchRaw : Option Char → List Char → Option (List Char)
  | _, [] => none
  | prev, c :: rest =>
    match rawHere prev (c :: rest) with
    | some w => some w
    | none => searchRaw (some c) rest

/-- Translation of the std::string overload cleanQuote(const std::string
&token): empty for empty input; trim the token; if the first double
quote is absent or at position 0, fall back to the StringRef overload on
the original token with both quotes mandatory; otherwise run the raw
pattern when the character before the first quote is R, else the
ordinary pattern, returning the captured characters on a match and the
trimmed token otherwise. -/
def cleanQuoteToken (token : List Char) : List Char :=
  match token with
  | [] => []
  | _ =>
    let string := trimBy qcharIsSpace token
    match indexOfQuote string with
    | Option.none => cleanQuote token LeftAndRight
    | some 0 => cleanQuote token LeftAndRight
    | some (i + 1) =>
      if string.get? i = some 'R' then
        match searchRaw Option.none string with
        | some w => w
        | Option.none => string
      else
        match searchOrdinary Option.none string with
        | some w => w
        | Option.none => string

end LupdatePrivate

/-- Reformulation of the StringRef overload of cleanQuote following the
words of the specification (trim first; a missing mandatory leading or
trailing quote yields empty; otherwise the text with any present leading
and trailing quote removed), written independently of the source's
consume calls, to be compared with LupdatePrivate.cleanQuote. -/
def quoteSpecModel (s : List Char) (quote : Nat) : List Char :=
  let t := trimBy isLLVMTrimChar s
  let hasL : Bool := t.head? == some '"'
  let afterL := if hasL then t.tail else t
  let hasR : Bool := afterL.getLast? == some '"'
  if !hasL && (quote &&& LupdatePrivate.Left != 0) then []
  else if !hasR && (quote &&& LupdatePrivate.Right != 0) then []
  else if hasR then afterL.dropLast else afterL

/-- Return values of TrFunctionAliasManager::trFunctionByName that the
switch in TranslationRelatedStore::isValid distinguishes.  The alias
manager itself lives outside the given sources; every return value not
named in the switch (including the -1 for an unrecognized name and the
QT_TR_NOOP family) takes the default branch of the switch, and all of
them are collapsed here into Function_unrecognized, which is
behaviorally identical inside isValid. -/
inductive TrFunction where
  | Function_Q_DECLARE_TR_FUNCTIONS
  | Function_tr
  | Function_trUtf8
  | Function_QT_TRANSLATE_N_NOOP
  | Function_QT_TRANSLATE_N_NOOP3
  | Function_translate
  | Function_QT_TRANSLATE_NOOP
  | Function_QT_TRANSLATE_NOOP_UTF8
  | Function_QT_TRANSLATE_NOOP3
  | Function_QT_TRANSLATE_NOOP3_UTF8
  | Function_QT_TRID_N_NOOP
  | Function_qtTrId
  | Function_QT_TRID_NOOP
  | Function_unrecognized
deriving DecidableEq

/-- clang::SourceLocation: an opaque packed id where 0 is the invalid
location produced by the default constructor. -/
structure SourceLocation where
  encoding : Nat := 0
deriving DecidableEq

/-- clang::SourceLocation::isInvalid(). -/
def SourceLocation.isInvalid (l : SourceLocation) : Bool :=
  l.encoding == 0

/-- Interface of the clang::SourceManager as used by callLocation:
getFile resolves a path through the FileManager to a file handle, and
translateFileLineCol resolves (file, line, column) to a location.  Both
are black-box front-end operations (out of scope per the spec), so they
are fields of this record. -/
structure SourceManager where
  getFile : String → Nat
  translateFileLineCol : Nat → Int → Int → SourceLocation

/-- Translation of struct TranslationRelatedStore with the field default
values of the C++ member initializers (QString default-constructs empty,
locationCol and lupdateLocationLine start at -1, sourceLocation
default-constructs invalid).  QHash becomes an association list. -/
structure TranslationRelatedStore where
  callType : String := ""
  rawCode : String := ""
  funcName : String := ""
  locationCol : Int := -1
  contextArg : String := ""
  contextRetrieved : String := ""
  lupdateSource : String := ""
  lupdateLocationFile : String := ""
  lupdateLocationLine : Int := -1
  lupdateId : String := ""
  lupdateSourceWhenId : String := ""
  lupdateIdMetaData : String := ""
  lupdateMagicMetaData : String := ""
  lupdateAllMagicMetaData : List (String × String) := []
  lupdateComment : String := ""
  lupdateExtraComment : String := ""
  lupdatePlural : String := ""
  sourceLocation : SourceLocation := {}

/-- Translation of TranslationRelatedStore::isValid.  The call
trFunctionAliasManager.trFunctionByName(funcName) consults the global
alias table, which is configuration supplied from outside this header, so
isValid takes the resolution function as a parameter.  The switch mirrors
the source: each case early-returns false when its mandatory field is
empty, and the common exit requires a non-empty location file and both
coordinates above -1. -/
def TranslationRelatedStore.isValid (resolve : String → TrFunction)
    (r : TranslationRelatedStore) : Bool :=
  let locOk : Bool := !r.lupdateLocationFile.isEmpty
    && decide (r.lupdateLocationLine > -1) && decide (r.locationCol > -1)
  match resolve r.funcName with
  | .Function_Q_DECLARE_TR_FUNCTIONS =>
    if r.contextArg.isEmpty then false else locOk
  | .Function_tr | .Function_trUtf8 =>
    if r.lupdateSource.isEmpty then false else locOk
  | .Function_QT_TRANSLATE_N_NOOP | .Function_QT_TRANSLATE_N_NOOP3
  | .Function_translate | .Function_QT_TRANSLATE_NOOP
  | .Function_QT_TRANSLATE_NOOP_UTF8 | .Function_QT_TRANSLATE_NOOP3
  | .Function_QT_TRANSLATE_NOOP3_UTF8 =>
    if r.contextArg.isEmpty || r.lupdateSource.isEmpty then false else locOk
  | .Function_QT_TRID_N_NOOP | .Function_qtTrId | .Function_QT_TRID_NOOP =>
    if r.lupdateId.isEmpty then false else locOk
  | .Function_unrecognized =>
    if r.funcName == "TRANSLATOR" && r.lupdateComment.isEmpty then false
    else locOk

/-- Translation of TranslationRelatedStore::callLocation: when the cached
sourceLocation is invalid, resolve the location from
lupdateLocationFile / lupdateLocationLine / locationCol through the
source manager and store it; return the (possibly updated) cached value
together with the updated record (the C++ method mutates the member and
returns it). -/
def TranslationRelatedStore.callLocation (sm : SourceManager)
    (r : TranslationRelatedStore) : SourceLocation × TranslationRelatedStore :=
  if r.sourceLocation.isInvalid then
    let sourceFile := sm.getFile r.lupdateLocationFile
    let loc := sm.translateFileLineCol sourceFile r.lupdateLocationLine
      r.locationCol
    (loc, { r with sourceLocation := loc })
  else
    (r.sourceLocation, r)

/-- Translation of struct Stores: four named partitions of
TranslationRelatedStore records (Preprocessor is a plain vector in the
source; the other three are WriteSynchronizedRef references). -/
structure Stores where
  Preprocessor : List TranslationRelatedStore := []
  AST : List TranslationRelatedStore := []
  QDeclareTrWithContext : List TranslationRelatedStore := []
  QNoopTranlsationWithContext : List TranslationRelatedStore := []

/-- Modelled from the spec: WriteSynchronizedRef (synchronized.h, not
among the given sources) appends one record to a partition inside a
short critical section ("lock the partition, copy in, unlock"), so each
append acts atomically on the partition. -/
def wsAppend (part : List TranslationRelatedStore)
    (r : TranslationRelatedStore) : List TranslationRelatedStore :=
  part ++ [r]

/-- Modelled from the spec: an interleaved execution of several producer
threads appending into one partition.  pending lists each producer's
records still to append, sched is the linearized order in which the
producers win the partition lock (an index whose producer is exhausted
is a no-op step).  Returns the remaining pending lists and the final
partition contents. -/
def runSchedule (sched : List Nat)
    (pending : List (List TranslationRelatedStore))
    (part : List TranslationRelatedStore) :
    List (List TranslationRelatedStore) × List TranslationRelatedStore :=
  match sched with
  | [] => (pending, part)
  | i :: sched2 =>
    match pending[i]? with
    | some (r :: pr) => runSchedule sched2 (pending.set i pr) (wsAppend part r)
    | _ => runSchedule sched2 pending part

theorem int_gt_neg_one (x : Int) : (x > -1) = (x ≥ 0) :=
  propext (by omega)

theorem guard_locOk (c : Bool) (r : TranslationRelatedStore) :
    ((if c = true then false
      else !r.lupdateLocationFile.isEmpty
        && decide (r.lupdateLocationLine > -1)
        && decide (r.locationCol > -1)) = true)
    ↔ ((r.lupdateLocationFile.isEmpty = false ∧ r.lupdateLocationLine ≥ 0
          ∧ r.locationCol ≥ 0) ∧ c = false) := by
  cases c
  · simp [int_gt_neg_one, and_assoc]
  · simp

theorem beq_and_eq_false (n m : String) (b : Bool) :
    ((n == m && b) = false) ↔ (n = m → b = false) := by
  cases hb : n == m with
  | true =>
    have he : n = m := by simpa using hb
    simp [he]
  | false =>
    have he : ¬n = m := by simpa using hb
    simp [he]

/-- C1: for every TranslationRelatedStore record, isValid() returns true
if and only if (i) lupdateLocationFile is non-empty and
lupdateLocationLine >= 0 and locationCol >= 0, and (ii) the
field-presence rule for the record's resolved call kind holds:
Q_DECLARE_TR_FUNCTIONS requires non-empty contextArg; tr/trUtf8 require
non-empty lupdateSource; translate and the QT_TRANSLATE_NOOP family
require both contextArg and lupdateSource non-empty; qtTrId and the
QT_TRID_NOOP family require non-empty lupdateId; a record resolving to
no recognized kind with funcName TRANSLATOR requires non-empty
lupdateComment. -/
theorem TranslationRelatedStore.isValid_iff (resolve : String → TrFunction)
    (r : TranslationRelatedStore) :
    r.isValid resolve = true ↔
      ((r.lupdateLocationFile.isEmpty = false ∧ r.lupdateLocationLine ≥ 0
          ∧ r.locationCol ≥ 0) ∧
       (match resolve r.funcName with
        | .Function_Q_DECLARE_TR_FUNCTIONS => r.contextArg.isEmpty = false
        | .Function_tr | .Function_trUtf8 => r.lupdateSource.isEmpty = false
        | .Function_QT_TRANSLATE_N_NOOP | .Function_QT_TRANSLATE_N_NOOP3
        | .Function_translate | .Function_QT_TRANSLATE_NOOP
        | .Function_QT_TRANSLATE_NOOP_UTF8 | .Function_QT_TRANSLATE_NOOP3
        | .Function_QT_TRANSLATE_NOOP3_UTF8 =>
            r.contextArg.isEmpty = false ∧ r.lupdateSource.isEmpty = false
        | .Function_QT_TRID_N_NOOP | .Function_qtTrId
        | .Function_QT_TRID_NOOP => r.lupdateId.isEmpty = false
        | .Function_unrecognized =>
            r.funcName = "TRANSLATOR" → r.lupdateComment.isEmpty = false)) := by
  cases h : resolve r.funcName <;>
    simp only [TranslationRelatedStore.isValid, h]
  case Function_Q_DECLARE_TR_FUNCTIONS =>
    exact (guard_locOk _ r).trans (and_congr_right fun _ => Iff.rfl)
  case Function_tr =>
    exact (guard_locOk _ r).trans (and_congr_right fun _ => Iff.rfl)
  case Function_trUtf8 =>
    exact (guard_locOk _ r).trans (and_congr_right fun _ => Iff.rfl)
  case Function_QT_TRANSLATE_N_NOOP =>
    exact (guard_locOk _ r).trans
      (and_congr_right fun _ => Bool.or_eq_false_iff)
  case Function_QT_TRANSLATE_N_NOOP3 =>
    exact (guard_locOk _ r).trans
      (and_congr_right fun _ => Bool.or_eq_false_iff)
  case Function_translate =>
    exact (guard_locOk _ r).trans
      (and_congr_right fun _ => Bool.or_eq_false_iff)
  case Function_QT_TRANSLATE_NOOP =>
    exact (guard_locOk _ r).trans
      (and_congr_right fun _ => Bool.or_eq_false_iff)
  case Function_QT_TRANSLATE_NOOP_UTF8 =>
    exact (guard_locOk _ r).trans
      (and_congr_right fun _ => Bool.or_eq_false_iff)
  case Function_QT_TRANSLATE_NOOP3 =>
    exact (guard_locOk _ r).trans
      (and_congr_right fun _ => Bool.or_eq_false_iff)
  case Function_QT_TRANSLATE_NOOP3_UTF8 =>
    exact (guard_locOk _ r).trans
      (and_congr_right fun _ => Bool.or_eq_false_iff)
  case Function_QT_TRID_N_NOOP =>
    exact (guard_locOk _ r).trans (and_congr_right fun _ => Iff.rfl)
  case Function_qtTrId =>
    exact (guard_locOk _ r).trans (and_congr_right fun _ => Iff.rfl)
  case Function_QT_TRID_NOOP =>
    exact (guard_locOk _ r).trans (and_congr_right fun _ => Iff.rfl)
  case Function_unrecognized =>
    exact (guard_locOk _ r).trans
      (and_congr_right fun _ => beq_and_eq_false _ _ _)

/-- C5: validity is decidable purely from a record's own fields (for a
fixed alias configuration): two records agreeing on every field isValid
reads (funcName, contextArg, lupdateSource, lupdateId, lupdateComment,
lupdateLocationFile, lupdateLocationLine, locationCol) get the same
isValid result, independent of any other record or prior call. -/
theorem TranslationRelatedStore.isValid_determined
    (resolve : String → TrFunction) (r1 r2 : TranslationRelatedStore)
    (h1 : r1.funcName = r2.funcName) (h2 : r1.contextArg = r2.contextArg)
    (h3 : r1.lupdateSource = r2.lupdateSource)
    (h4 : r1.lupdateId = r2.lupdateId)
    (h5 : r1.lupdateComment = r2.lupdateComment)
    (h6 : r1.lupdateLocationFile = r2.lupdateLocationFile)
    (h7 : r1.lupdateLocationLine = r2.lupdateLocationLine)
    (h8 : r1.locationCol = r2.locationCol) :
    r1.isValid resolve = r2.isValid resolve := by
  simp only [TranslationRelatedStore.isValid, h1, h2, h3, h4, h5, h6, h7, h8]

/-- C5 witness: two concrete records differing in rawCode but agreeing on
the fields isValid reads are judged identically. -/
theorem TranslationRelatedStore.isValid_determined_witness :
    TranslationRelatedStore.isValid (fun _ => TrFunction.Function_tr)
        { funcName := "tr", lupdateSource := "hello", rawCode := "tr(x)",
          lupdateLocationFile := "a.cpp", lupdateLocationLine := 3,
          locationCol := 5 }
      = TranslationRelatedStore.isValid (fun _ => TrFunction.Function_tr)
        { funcName := "tr", lupdateSource := "hello", rawCode := "other",
          lupdateLocationFile := "a.cpp", lupdateLocationLine := 3,
          locationCol := 5 } :=
  TranslationRelatedStore.isValid_determined (fun _ => TrFunction.Function_tr)
    _ _ rfl rfl rfl rfl rfl rfl rfl rfl

/-- C8: a record whose funcName resolves to no recognized
translation-function kind and is not the string TRANSLATOR is valid as
soon as lupdateLocationFile is non-empty and both location coordinates
are at least 0; no content field is required. -/
theorem TranslationRelatedStore.isValid_unrecognized
    (resolve : String → TrFunction) (r : TranslationRelatedStore)
    (hres : resolve r.funcName = TrFunction.Function_unrecognized)
    (hname : r.funcName ≠ "TRANSLATOR")
    (hfile : r.lupdateLocationFile.isEmpty = false)
    (hline : r.lupdateLocationLine ≥ 0) (hcol : r.locationCol ≥ 0) :
    r.isValid resolve = true := by
  simp [TranslationRelatedStore.isValid, hres, hname, hfile, int_gt_neg_one,
    hline, hcol]

/-- C8 witness: a record naming an unrecognized function with every
content field empty but a proper location is valid. -/
theorem TranslationRelatedStore.isValid_unrecognized_witness :
    TranslationRelatedStore.isValid (fun _ => TrFunction.Function_unrecognized)
      { funcName := "myHelper", lupdateLocationFile := "a.cpp",
        lupdateLocationLine := 1, locationCol := 2 } = true :=
  TranslationRelatedStore.isValid_unrecognized _ _ rfl (by decide) rfl
    (by decide) (by decide)

/-- C6: callLocation computes the resolved location lazily and caches it:
when the stored sourceLocation is invalid the returned location is
derived from lupdateLocationFile, lupdateLocationLine and locationCol
through the source manager; the returned location is always the one
stored in the returned record; when the stored location is already valid
the call returns it and the record unchanged for every source manager
(no recomputation); and calling callLocation twice returns the same
value as calling it once. -/
theorem TranslationRelatedStore.callLocation_caching (sm : SourceManager)
    (r : TranslationRelatedStore) :
    (r.sourceLocation.isInvalid = true →
        (r.callLocation sm).1 =
          sm.translateFileLineCol (sm.getFile r.lupdateLocationFile)
            r.lupdateLocationLine r.locationCol)
    ∧ (r.callLocation sm).2.sourceLocation = (r.callLocation sm).1
    ∧ (r.sourceLocation.isInvalid = false →
        ∀ sm2 : SourceManager, r.callLocation sm2 = (r.sourceLocation, r))
    ∧ ((r.callLocation sm).2.callLocation sm).1 = (r.callLocation sm).1 := by
  cases h : r.sourceLocation.isInvalid <;>
    simp [TranslationRelatedStore.callLocation, h]

/-- C6 witness: a concrete record with an invalid cached location gets
the front-end-derived location. -/
theorem TranslationRelatedStore.callLocation_caching_witness :
    (TranslationRelatedStore.callLocation
        { getFile := fun _ => 7,
          translateFileLineCol := fun f l c => ⟨f + l.toNat + c.toNat⟩ }
        { lupdateLocationFile := "a.cpp", lupdateLocationLine := 3,
          locationCol := 5 }).1
      = SourceLocation.mk 15 :=
  ((TranslationRelatedStore.callLocation_caching
      { getFile := fun _ => 7,
        translateFileLineCol := fun f l c => ⟨f + l.toNat + c.toNat⟩ }
      { lupdateLocationFile := "a.cpp", lupdateLocationLine := 3,
        locationCol := 5 }).1 rfl).trans (by decide)

/-- C9: callLocation modifies only the sourceLocation field; every other
field of the returned record equals the corresponding field of the
input record. -/
theorem TranslationRelatedStore.callLocation_frame (sm : SourceManager)
    (r : TranslationRelatedStore) :
    (r.callLocation sm).2.callType = r.callType
    ∧ (r.callLocation sm).2.rawCode = r.rawCode
    ∧ (r.callLocation sm).2.funcName = r.funcName
    ∧ (r.callLocation sm).2.locationCol = r.locationCol
    ∧ (r.callLocation sm).2.contextArg = r.contextArg
    ∧ (r.callLocation sm).2.contextRetrieved = r.contextRetrieved
    ∧ (r.callLocation sm).2.lupdateSource = r.lupdateSource
    ∧ (r.callLocation sm).2.lupdateLocationFile = r.lupdateLocationFile
    ∧ (r.callLocation sm).2.lupdateLocationLine = r.lupdateLocationLine
    ∧ (r.callLocation sm).2.lupdateId = r.lupdateId
    ∧ (r.callLocation sm).2.lupdateSourceWhenId = r.lupdateSourceWhenId
    ∧ (r.callLocation sm).2.lupdateIdMetaData = r.lupdateIdMetaData
    ∧ (r.callLocation sm).2.lupdateMagicMetaData = r.lupdateMagicMetaData
    ∧ (r.callLocation sm).2.lupdateAllMagicMetaData
        = r.lupdateAllMagicMetaData
    ∧ (r.callLocation sm).2.lupdateComment = r.lupdateComment
    ∧ (r.callLocation sm).2.lupdateExtraComment = r.lupdateExtraComment
    ∧ (r.callLocation sm).2.lupdatePlural = r.lupdatePlural := by
  cases h : r.sourceLocation.isInvalid <;>
    simp [TranslationRelatedStore.callLocation, h]

/-- C10: both cleanQuote overloads map empty input to empty output, the
StringRef overload under every quote requirement. -/
theorem cleanQuote_empty :
    (∀ quote : Nat, LupdatePrivate.cleanQuote [] quote = [])
    ∧ LupdatePrivate.cleanQuoteToken [] = [] :=
  ⟨fun _ => rfl, rfl⟩

/-- C4: the StringRef overload of cleanQuote first trims surrounding
whitespace, returns empty when a mandatory leading or trailing quote
(per the Left/Right bits) is absent, and otherwise returns the text with
any present leading and trailing quote removed (the spec-side
reformulation quoteSpecModel); in particular cleanQuote on a quoted
hello with both quotes mandatory yields hello, on a bare hello with the
left quote mandatory yields empty, and on a bare hello with no
requirement yields hello. -/
theorem cleanQuote_requirements :
    (∀ (s : List Char) (quote : Nat),
        LupdatePrivate.cleanQuote s quote = quoteSpecModel s quote)
    ∧ LupdatePrivate.cleanQuote (" \"hello\" ".toList)
        LupdatePrivate.LeftAndRight = "hello".toList
    ∧ LupdatePrivate.cleanQuote ("hello".toList) LupdatePrivate.Left = []
    ∧ LupdatePrivate.cleanQuote ("hello".toList) LupdatePrivate.None
        = "hello".toList := by
  refine ⟨?_, by decide, by decide, by decide⟩
  intro s quote
  by_cases hs : s.isEmpty
  · have hnil : s = [] := by cases s <;> simp_all
    subst hnil
    simp only [LupdatePrivate.cleanQuote, quoteSpecModel, trimBy]
    split_ifs <;> rfl
  · simp only [LupdatePrivate.cleanQuote, quoteSpecModel, hs,
      Bool.false_eq_true, if_false]
    cases ht : trimBy isLLVMTrimChar s with
    | nil =>
      simp [LupdatePrivate.consume_front, LupdatePrivate.consume_back]
    | cons c rest =>
      by_cases hc : c = '"'
      · subst hc
        rcases hb : rest.getLast? with _ | c2
        · simp [LupdatePrivate.consume_front, LupdatePrivate.consume_back, hb]
        · by_cases hc2 : c2 = '"' <;>
            simp [LupdatePrivate.consume_front, LupdatePrivate.consume_back,
              hb, hc2]
      · rcases hb : (c :: rest).getLast? with _ | c2
        · simp [LupdatePrivate.consume_front, LupdatePrivate.consume_back,
            hb, hc]
        · by_cases hc2 : c2 = '"' <;>
            simp [LupdatePrivate.consume_front, LupdatePrivate.consume_back,
              hb, hc, hc2]

theorem join_set_perm {α : Type _} :
    ∀ (pending : List (List α)) (i : Nat) (r : α) (pr : List α),
      pending[i]? = some (r :: pr) →
      pending.flatten.Perm (r :: (pending.set i pr).flatten)
  | [], i, r, pr, hp => by simp at hp
  | q :: qs, 0, r, pr, hp => by
    simp at hp
    subst hp
    simp [List.flatten]
  | q :: qs, i + 1, r, pr, hp => by
    simp at hp
    have h := join_set_perm qs i r pr hp
    simpa [List.flatten]
      using (List.Perm.append_left q h).trans List.perm_middle

theorem runSchedule_perm (sched : List Nat) :
    ∀ (pending : List (List TranslationRelatedStore))
      (part : List TranslationRelatedStore),
      ((runSchedule sched pending part).2
        ++ (runSchedule sched pending part).1.flatten).Perm
        (part ++ pending.flatten) := by
  induction sched with
  | nil => intro pending part; simp [runSchedule]
  | cons i sched2 ih =>
    intro pending part
    simp only [runSchedule]
    cases hp : pending[i]? with
    | none => exact ih pending part
    | some l =>
      cases l with
      | nil => exact ih pending part
      | cons r pr =>
        refine (ih (pending.set i pr) (wsAppend part r)).trans ?_
        have h := join_set_perm pending i r pr hp
        have he : wsAppend part r ++ (pending.set i pr).flatten
            = part ++ (r :: (pending.set i pr).flatten) := by
          simp [wsAppend]
        rw [he]
        exact List.Perm.append_left part h.symm

/-- C7: under the spec's locking discipline for WriteSynchronizedRef
(each append is one short critical section), every interleaved execution
of concurrent producers appending into one partition ends, once all
producers are exhausted, with the partition holding exactly the multiset
of all appended records: no record is corrupted or silently lost, for
every schedule. -/
theorem stores_append_no_loss (sched : List Nat)
    (pending : List (List TranslationRelatedStore))
    (hdone : (runSchedule sched pending []).1.all List.isEmpty = true) :
    (runSchedule sched pending []).2.Perm pending.flatten := by
  have h := runSchedule_perm sched pending []
  have hjoin : (runSchedule sched pending []).1.flatten = [] := by
    rw [List.flatten_eq_nil_iff]
    intro l hl
    have := List.all_eq_true.mp hdone l hl
    simpa [List.isEmpty_iff] using this
  rw [hjoin, List.append_nil, List.nil_append] at h
  exact h

/-- C7 witness: two producers with three records in total, appended under
the interleaving 0,0,1, leave the partition holding exactly those three
records. -/
theorem stores_append_no_loss_witness :
    (runSchedule [0, 0, 1]
        ([[{ funcName := "tr" }, { funcName := "translate" }],
          [{ funcName := "qtTrId" }]] :
          List (List TranslationRelatedStore)) []).2.Perm
      ([[{ funcName := "tr" }, { funcName := "translate" }],
        [{ funcName := "qtTrId" }]] :
        List (List TranslationRelatedStore)).flatten :=
  stores_append_no_loss [0, 0, 1] _ (by decide)

theorem trimBy_eq_self (f : Char → Bool) (s : List Char)
    (h1 : ∀ c, s.head? = some c → f c = false)
    (h2 : ∀ c, s.getLast? = some c → f c = false) :
    trimBy f s = s := by
  cases s with
  | nil => rfl
  | cons a t =>
    have ha : f a = false := h1 a rfl
    unfold trimBy
    rw [List.dropWhile_cons, ha]
    simp only [Bool.false_eq_true, if_false]
    rcases hr : (a :: t).reverse with _ | ⟨b, rt⟩
    · simp at hr
    · have hb : f b = false := by
        apply h2
        rw [← List.head?_reverse, hr]
        rfl
      rw [List.dropWhile_cons, hb]
      simp only [Bool.false_eq_true, if_false]
      rw [← hr, List.reverse_reverse]

theorem scanBody_append :
    ∀ (content : List Char), LupdatePrivate.bodyOk content = true →
      ∀ rest : List Char,
        LupdatePrivate.scanBody (content ++ '"' :: rest)
          = some (content, rest) := by
  have H : ∀ (n : Nat) (content : List Char), content.length ≤ n →
      LupdatePrivate.bodyOk content = true →
      ∀ rest : List Char,
        LupdatePrivate.scanBody (content ++ '"' :: rest)
          = some (content, rest) := by
    intro n
    induction n with
    | zero =>
      intro content hlen _ rest
      have hnil : content = [] :=
        List.eq_nil_of_length_eq_zero (Nat.le_zero.mp hlen)
      subst hnil
      rw [List.nil_append, LupdatePrivate.scanBody.eq_def]
      simp
    | succ n ih =>
      intro content hlen hok rest
      match content with
      | [] =>
        rw [List.nil_append, LupdatePrivate.scanBody.eq_def]
        simp
      | c :: t =>
        by_cases hc : c = '"'
        · rw [hc, LupdatePrivate.bodyOk.eq_def] at hok
          simp at hok
        · by_cases hb : c = '\\'
          · subst hb
            rw [LupdatePrivate.bodyOk.eq_def] at hok
            simp at hok
            match t with
            | [] => simp at hok
            | c2 :: t2 =>
              simp at hok
              have hlen2 : t2.length ≤ n :=
                Nat.le_of_succ_le (Nat.le_of_succ_le_succ (by simpa using hlen))
              rw [List.cons_append, List.cons_append,
                LupdatePrivate.scanBody.eq_def]
              simp [hok.1, ih t2 hlen2 hok.2 rest]
          · rw [LupdatePrivate.bodyOk.eq_def] at hok
            simp [hc, hb] at hok
            have hlen2 : t.length ≤ n :=
              Nat.le_of_succ_le_succ (by simpa using hlen)
            rw [List.cons_append, LupdatePrivate.scanBody.eq_def]
            simp [hc, hb, ih t hlen2 hok rest]
  intro content hok rest
  exact H content.length content (Nat.le_refl _) hok rest

theorem isPrefixOf_self (l : List Char) : l.isPrefixOf l = true := by
  induction l with
  | nil => rfl
  | cons c t ih => simp [List.isPrefixOf, ih]

theorem findLastClose_none (d : List Char) :
    ∀ t : List Char, (∀ c ∈ t, c ≠ ')') →
      LupdatePrivate.findLastClose d t = none := by
  intro t
  induction t with
  | nil => intro _; rfl
  | cons c rest ih =>
    intro h
    have hc : (')' : Char) ≠ c := Ne.symm (h c (List.mem_cons_self c rest))
    have hrest := ih (fun x hx => h x (List.mem_cons_of_mem c hx))
    simp [LupdatePrivate.findLastClose, hrest, List.isPrefixOf, beq_iff_eq, hc]

theorem rawClass_ne_rparen {c : Char} (h : LupdatePrivate.rawClassChar c = true) :
    c ≠ ')' := by
  simp [LupdatePrivate.rawClassChar] at h
  tauto

theorem findLastClose_closes (d : List Char)
    (hd : ∀ c ∈ d, LupdatePrivate.rawClassChar c = true) :
    ∀ content : List Char,
      LupdatePrivate.findLastClose d (content ++ ')' :: (d ++ ['"']))
        = some content := by
  intro content
  induction content with
  | nil =>
    have hnone : LupdatePrivate.findLastClose d (d ++ ['"']) = none := by
      apply findLastClose_none
      intro c hc
      rcases List.mem_append.mp hc with h1 | h2
      · exact rawClass_ne_rparen (hd c h1)
      · simp at h2
        subst h2
        decide
    simp [LupdatePrivate.findLastClose, hnone, isPrefixOf_self]
  | cons c t ih =>
    simp [List.cons_append, LupdatePrivate.findLastClose, ih]

theorem takeWhile_class_append (d : List Char)
    (hd : ∀ c ∈ d, LupdatePrivate.rawClassChar c = true) (rest : List Char) :
    (d ++ '(' :: rest).takeWhile LupdatePrivate.rawClassChar = d := by
  induction d with
  | nil =>
    simp [List.takeWhile_cons]
    decide
  | cons c t ih =>
    have hc := hd c (List.mem_cons_self c t)
    simp only [List.cons_append, List.takeWhile_cons, hc, if_true]
    rw [ih (fun x hx => hd x (List.mem_cons_of_mem c hx))]

theorem rawBody_closes (d content : List Char)
    (hd : ∀ c ∈ d, LupdatePrivate.rawClassChar c = true)
    (hlen : d.length ≤ 16) :
    LupdatePrivate.rawBody (d ++ '(' :: (content ++ ')' :: (d ++ ['"'])))
      = some content := by
  simp only [LupdatePrivate.rawBody, takeWhile_class_append d hd, hlen,
    if_true, List.drop_left]
  exact findLastClose_closes d hd content

theorem searchRaw_start (rest w : List Char)
    (h : LupdatePrivate.rawBody rest = some w) :
    LupdatePrivate.searchRaw Option.none ('R' :: '"' :: rest) = some w := by
  simp [LupdatePrivate.searchRaw, LupdatePrivate.rawHere, h]

theorem searchOrdinary_u8 (r content rest : List Char)
    (h : LupdatePrivate.scanBody r = some (content, rest)) :
    LupdatePrivate.searchOrdinary Option.none ('u' :: '8' :: '"' :: r)
      = some content := by
  simp [LupdatePrivate.searchOrdinary, LupdatePrivate.ordinaryHere, h,
    (by decide : boundaryAt Option.none 'u' = true)]

theorem searchOrdinary_single (c0 : Char) (r content rest : List Char)
    (hc : c0 = 'L' ∨ c0 = 'u' ∨ c0 = 'U')
    (h : LupdatePrivate.scanBody r = some (content, rest)) :
    LupdatePrivate.searchOrdinary Option.none (c0 :: '"' :: r)
      = some content := by
  rcases hc with hc | hc | hc <;> subst hc <;>
    simp [LupdatePrivate.searchOrdinary, LupdatePrivate.ordinaryHere, h,
      (by decide : boundaryAt Option.none 'L' = true),
      (by decide : boundaryAt Option.none 'u' = true),
      (by decide : boundaryAt Option.none 'U' = true)]

theorem trim_token (f : Char → Bool) (a : Char) (mid : List Char)
    (ha : f a = false) (hq : f '"' = false) :
    trimBy f (a :: (mid ++ ['"'])) = a :: (mid ++ ['"']) := by
  apply trimBy_eq_self
  · intro c hc
    simp at hc
    subst hc
    exact ha
  · intro c hc
    have e : (a :: (mid ++ ['"'])) = (a :: mid) ++ ['"'] := by simp
    rw [e, List.getLast?_concat] at hc
    simp at hc
    subst hc
    exact hq

/-- C2: stripLiteralToken (the std::string overload of cleanQuote)
returns the decoded character content of a string-literal token: a plain
literal yields exactly the characters between its outer quotes; a raw
literal, recognized by the R immediately preceding the opening quote
with a delimiter of up to 16 characters outside the class of space,
parentheses and backslash, yields the inner content between the
delimited parentheses exactly unchanged; and an ordinary literal with
prefix u8, L, u or U yields its body with internal escape sequences such
as an escaped quote or escaped backslash left encoded, only the outer
syntax being stripped. -/
theorem cleanQuoteToken_literals :
    (∀ content : List Char,
        LupdatePrivate.cleanQuoteToken ('"' :: (content ++ ['"'])) = content)
    ∧ (∀ d content : List Char,
        (∀ c ∈ d, LupdatePrivate.rawClassChar c = true) → d.length ≤ 16 →
        LupdatePrivate.cleanQuoteToken
          ('R' :: '"' :: (d ++ '(' :: (content ++ ')' :: (d ++ ['"']))))
          = content)
    ∧ (∀ p content : List Char,
        (p = ['u', '8'] ∨ p = ['L'] ∨ p = ['u'] ∨ p = ['U']) →
        LupdatePrivate.bodyOk content = true →
        LupdatePrivate.cleanQuoteToken (p ++ '"' :: (content ++ ['"']))
          = content) := by
  refine ⟨?_, ?_, ?_⟩
  · intro content
    have ht1 : trimBy qcharIsSpace ('"' :: (content ++ ['"']))
        = '"' :: (content ++ ['"']) := trim_token _ _ _ (by decide) (by decide)
    have ht2 : trimBy isLLVMTrimChar ('"' :: (content ++ ['"']))
        = '"' :: (content ++ ['"']) := trim_token _ _ _ (by decide) (by decide)
    simp [LupdatePrivate.cleanQuoteToken, ht1, ht2, indexOfQuote,
      LupdatePrivate.cleanQuote, LupdatePrivate.consume_front,
      LupdatePrivate.consume_back, List.getLast?_concat, List.dropLast_concat,
      LupdatePrivate.LeftAndRight, LupdatePrivate.Left, LupdatePrivate.Right]
  · intro d content hd hlen
    have e : 'R' :: '"' :: (d ++ '(' :: (content ++ ')' :: (d ++ ['"'])))
        = 'R' :: (('"' :: (d ++ '(' :: (content ++ ')' :: d))) ++ ['"']) := by
      simp
    have ht1 : trimBy qcharIsSpace
        ('R' :: '"' :: (d ++ '(' :: (content ++ ')' :: (d ++ ['"']))))
        = 'R' :: '"' :: (d ++ '(' :: (content ++ ')' :: (d ++ ['"']))) := by
      rw [e]
      exact trim_token _ _ _ (by decide) (by decide)
    have hsearch := searchRaw_start _ _ (rawBody_closes d content hd hlen)
    simp [LupdatePrivate.cleanQuoteToken, ht1, indexOfQuote, hsearch]
  · intro p content hp hok
    rcases hp with hp | hp | hp | hp <;> subst hp <;>
      simp only [List.cons_append, List.nil_append]
    · have e : 'u' :: '8' :: '"' :: (content ++ ['"'])
          = 'u' :: (('8' :: '"' :: content) ++ ['"']) := by simp
      have ht1 : trimBy qcharIsSpace ('u' :: '8' :: '"' :: (content ++ ['"']))
          = 'u' :: '8' :: '"' :: (content ++ ['"']) := by
        rw [e]
        exact trim_token _ _ _ (by decide) (by decide)
      have hsearch := searchOrdinary_u8 _ _ _ (scanBody_append content hok [])
      simp [LupdatePrivate.cleanQuoteToken, ht1, indexOfQuote, hsearch]
    · have e : 'L' :: '"' :: (content ++ ['"'])
          = 'L' :: (('"' :: content) ++ ['"']) := by simp
      have ht1 : trimBy qcharIsSpace ('L' :: '"' :: (content ++ ['"']))
          = 'L' :: '"' :: (content ++ ['"']) := by
        rw [e]
        exact trim_token _ _ _ (by decide) (by decide)
      have hsearch := searchOrdinary_single 'L' _ _ _ (Or.inl rfl)
        (scanBody_append content hok [])
      simp [LupdatePrivate.cleanQuoteToken, ht1, indexOfQuote, hsearch]
    · have e : 'u' :: '"' :: (content ++ ['"'])
          = 'u' :: (('"' :: content) ++ ['"']) := by simp
      have ht1 : trimBy qcharIsSpace ('u' :: '"' :: (content ++ ['"']))
          = 'u' :: '"' :: (content ++ ['"']) := by
        rw [e]
        exact trim_token _ _ _ (by decide) (by decide)
      have hsearch := searchOrdinary_single 'u' _ _ _ (Or.inr (Or.inl rfl))
        (scanBody_append content hok [])
      simp [LupdatePrivate.cleanQuoteToken, ht1, indexOfQuote, hsearch]
    · have e : 'U' :: '"' :: (content ++ ['"'])
          = 'U' :: (('"' :: content) ++ ['"']) := by simp
      have ht1 : trimBy qcharIsSpace ('U' :: '"' :: (content ++ ['"']))
          = 'U' :: '"' :: (content ++ ['"']) := by
        rw [e]
        exact trim_token _ _ _ (by decide) (by decide)
      have hsearch := searchOrdinary_single 'U' _ _ _ (Or.inr (Or.inr rfl))
        (scanBody_append content hok [])
      simp [LupdatePrivate.cleanQuoteToken, ht1, indexOfQuote, hsearch]

/-- C2 witness: a plain literal, a raw literal with delimiter xy and a
quoted word inside, and a u8-prefixed literal with an escaped quote that
stays encoded. -/
theorem cleanQuoteToken_literals_witness :
    LupdatePrivate.cleanQuoteToken ('"' :: ("abc".toList ++ ['"']))
      = "abc".toList
    ∧ LupdatePrivate.cleanQuoteToken
        ('R' :: '"' :: ("xy".toList
          ++ '(' :: ("a \"q\" b".toList ++ ')' :: ("xy".toList ++ ['"']))))
        = "a \"q\" b".toList
    ∧ LupdatePrivate.cleanQuoteToken
        (['u', '8'] ++ '"' :: ("a\\\"b".toList ++ ['"'])) = "a\\\"b".toList :=
  ⟨cleanQuoteToken_literals.1 _,
   cleanQuoteToken_literals.2.1 "xy".toList _ (by decide) (by decide),
   cleanQuoteToken_literals.2.2 ['u', '8'] _ (Or.inl rfl) (by decide)⟩

/-- C3 counterexample: the token abc has no recognizable literal shape,
yet cleanQuote returns the empty string, not the original token text:
with no double quote present the function falls into the strict
both-quotes-mandatory path, which yields empty. -/
theorem cleanQuoteToken_fallback_counterexample :
    LupdatePrivate.cleanQuoteToken "abc".toList = []
    ∧ "abc".toList ≠ ([] : List Char) := by
  exact ⟨by decide, by decide⟩

/-- C3 (amended): when the trimmed token has its first double quote at
some position at least 1 and the selected literal pattern (raw when the
character before that quote is R, ordinary otherwise) does not match,
cleanQuote returns the trimmed token text unchanged; tokens without any
double quote, or whose first double quote sits at position 0, take the
strict both-quotes-mandatory path instead and can come back empty. -/
theorem cleanQuoteToken_fallback (t : List Char) (i : Nat)
    (h1 : indexOfQuote (trimBy qcharIsSpace t) = some (i + 1))
    (h2 : (if (trimBy qcharIsSpace t).get? i = some 'R'
           then LupdatePrivate.searchRaw Option.none (trimBy qcharIsSpace t)
           else LupdatePrivate.searchOrdinary Option.none
             (trimBy qcharIsSpace t)) = none) :
    LupdatePrivate.cleanQuoteToken t = trimBy qcharIsSpace t := by
  cases t with
  | nil => simp [trimBy, indexOfQuote] at h1
  | cons c rest =>
    simp only [LupdatePrivate.cleanQuoteToken, h1]
    by_cases hr : (trimBy qcharIsSpace (c :: rest)).get? i = some 'R'
    · rw [if_pos hr] at h2
      rw [List.get?_eq_getElem?] at hr
      simp [hr, h2]
    · rw [if_neg hr] at h2
      rw [List.get?_eq_getElem?] at hr
      simp [hr, h2]

/-- C3 witness for the amended statement: the token x-quote-abc is not a
literal and comes back as its own (trimmed) text. -/
theorem cleanQuoteToken_fallback_witness :
    LupdatePrivate.cleanQuoteToken "x\"a".toList
      = trimBy qcharIsSpace "x\"a".toList :=
  cleanQuoteToken_fallback "x\"a".toList 0 (by decide) (by decide)
